import Mathlib

/-
  Verification development for the chaos-mesh control plane and chaos-daemon.

  The definitions below are shallow embeddings of the Go sources:
  * controllers/twophase/types.go            (two-phase reconciler)
  * api/v1alpha1 kernelchaos webhook         (ValidateScheduler / Validate)
  * controllers/networkchaos/partition/types.go (finalizer encoding, forced cleanup)
  * controllers/podchaos/podkill/types.go    (pod-kill Apply / Recover)
  * controllers/podchaos/podfailure/types.go (failPod)
  * pkg/chaosdaemon/iptables_server.go       (SetIptablesChains)
  * chaosdaemon tc server                    (SetTcs, convertNetemToArgs)

  Machine integers are modelled as Nat / Int, time.Time as Int (with 0 playing
  the role of the Go zero time), and protobuf float32 fields as Rat.  Fallible
  Go functions return Except/Option.  Kubernetes API calls are replaced by
  explicit state passing; results of external calls (client deletes, the inner
  Apply/Recover of the two-phase reconciler, cron evaluation) are passed in as
  function parameters.
-/

namespace ChaosMesh

/-- Scheduler specification of a chaos resource (api/v1alpha1.SchedulerSpec):
a cron expression. -/
structure SchedulerSpec where
  cron : String
  deriving Repr, DecidableEq

/- ===================== C2 : admission validation ===================== -/

/-- The duration/scheduler part of a chaos spec, as consumed by
KernelChaos.ValidateScheduler (api/v1alpha1 kernelchaos webhook). -/
structure KernelChaosSpec where
  duration : Option String
  scheduler : Option SchedulerSpec
  deriving Repr, DecidableEq

/-- Error message constant used by the webhook validators. -/
def validateSchedulerError : String :=
  "must be specified with scheduler"

/-- Embedding of KernelChaos.ValidateScheduler: returns the field error list.
Both fields set, or both unset, yield no errors; otherwise one error. -/
def validateScheduler (s : KernelChaosSpec) : List String :=
  if s.duration.isSome && s.scheduler.isSome then []
  else if s.duration.isNone && s.scheduler.isNone then []
  else [validateSchedulerError]

/-- Embedding of KernelChaos.Validate: aggregates the error list into a
single error. -/
def validate (s : KernelChaosSpec) : Except String Unit :=
  match validateScheduler s with
  | [] => .ok ()
  | e :: _ => .error e

/- ===================== C4 : partition finalizer round trip ============ -/

/-- Direction of an iptables rule (pb.Rule_Direction). -/
inductive RuleDirection
  | input
  | output
  deriving Repr, DecidableEq

/-- The directional key text prepended by partition.Reconciler.BlockSet.
Finalizer strings are modelled as byte sequences (List Char), matching the
byte slicing key[0:6] / key[6:] in the Go source. -/
def directionKeyText : RuleDirection → List Char
  | .input => "input-".data
  | .output => "output".data

/-- Finalizer written by partition.Reconciler.BlockSet for a pod key:
"input-" ++ key for INPUT rules and "output" ++ key for OUTPUT rules. -/
def partitionFinalizer (d : RuleDirection) (key : List Char) : List Char :=
  match d with
  | .input => "input-".data ++ key
  | .output => "output".data ++ key

/-- The parse performed by partition.Reconciler.cleanFinalizersAndRecover:
direction := key[0:6], podKey := key[6:]. -/
def parsePartitionFinalizer (f : List Char) : List Char × List Char :=
  (f.take 6, f.drop 6)

/-- Pod key as produced by cache.MetaNamespaceKeyFunc: namespace ++ "/" ++ name. -/
def metaNamespaceKey (ns name : List Char) : List Char :=
  ns ++ '/' :: name

/- ===================== C9 : forced finalizer cleanup ================== -/

/-- Outcome of the per-finalizer cleanup attempted by
cleanFinalizersAndRecover (pod lookup plus the per-target recover call). -/
inductive CleanupOutcome
  | success
  | notFound
  | failed (msg : String)
  deriving Repr, DecidableEq

/-- Modelled from the spec: utils.RemoveFromFinalizer is not under src; the
spec says finalizers are removed one-by-one as their cleanup succeeds. -/
def removeFromFinalizer (fs : List String) (key : String) : List String :=
  fs.filter (fun f => f ≠ key)

/-- The per-key loop of cleanFinalizersAndRecover: iterates over the snapshot
of the finalizer list, removing cleaned-up (or vanished) keys from the
current list and accumulating errors (multierror). -/
def cleanLoop (cleanup : String → CleanupOutcome) :
    List String → List String → List String → List String × List String
  | cur, errs, [] => (cur, errs)
  | cur, errs, k :: rest =>
    match cleanup k with
    | .success => cleanLoop cleanup (removeFromFinalizer cur k) errs rest
    | .notFound => cleanLoop cleanup (removeFromFinalizer cur k) errs rest
    | .failed e => cleanLoop cleanup cur (errs ++ [e]) rest

/-- Embedding of cleanFinalizersAndRecover (partition/podfailure variants):
runs the cleanup loop, then, when the resource carries the annotation
cleanFinalizer=forced, empties the finalizer list and returns nil; otherwise
returns the remaining finalizers and the accumulated error (if any).
Returns (final finalizer list, returned error list or none). -/
def cleanFinalizersAndRecover (forced : Bool) (finalizers : List String)
    (cleanup : String → CleanupOutcome) : List String × Option (List String) :=
  let r := cleanLoop cleanup finalizers [] finalizers
  if forced then ([], none)
  else (r.1, if r.2.isEmpty then none else some r.2)

/- ===================== theorems for C2, C4, C9 ======================== -/

/-- C2: admission validation of the scheduler/duration pair succeeds exactly
when spec.duration and spec.scheduler are both present or both absent; with
exactly one of the two set, Validate returns an error. -/
theorem validate_ok_iff_duration_scheduler_agree (s : KernelChaosSpec) :
    (validate s = .ok ()) ↔ (s.duration.isSome = s.scheduler.isSome) := by
  obtain ⟨d, sch⟩ := s
  cases d <;> cases sch <;> simp [validate, validateScheduler]

/-- C4: both finalizer key prefixes written by partition BlockSet have length
exactly 6, and the Recover-side parse (first 6 bytes / remainder) recovers
exactly the direction text and the namespace/name pod key that produced the
finalizer. -/
theorem partition_finalizer_roundtrip (d : RuleDirection) (ns name : List Char) :
    (directionKeyText d).length = 6 ∧
    parsePartitionFinalizer (partitionFinalizer d (metaNamespaceKey ns name)) =
      (directionKeyText d, metaNamespaceKey ns name) := by
  cases d <;>
    refine ⟨by decide, ?_⟩ <;>
    · unfold parsePartitionFinalizer partitionFinalizer
      rw [List.take_left' (by decide), List.drop_left' (by decide)]
      rfl

/-- C9: with the cleanFinalizer=forced annotation, cleanFinalizersAndRecover
empties the finalizer list and reports success, whatever the per-target
cleanup outcomes were (all accumulated errors are discarded). -/
theorem forced_clean_discards_errors (finalizers : List String)
    (cleanup : String → CleanupOutcome) :
    cleanFinalizersAndRecover true finalizers cleanup = ([], none) := by
  simp [cleanFinalizersAndRecover]

/- ===================== two-phase reconciler (C1, C10) ================= -/

/-- Experiment phase (v1alpha1.ExperimentPhase). -/
inductive ExperimentPhase
  | phaseNone
  | running
  | waiting
  | paused
  | failed
  | finished
  deriving Repr, DecidableEq

deriving instance DecidableEq for Except

/-- The fields of an InnerSchedulerObject read by twophase.Reconciler.Reconcile.
Times are Int (0 plays the role of the Go zero time, as produced by
SetNextRecover(time.Time\x7b\x7d)); durationResult is the value returned by
GetDuration(), which fails on an unparsable spec.duration string. -/
structure TwoPhaseChaos where
  durationResult : Except String (Option Int)
  scheduler : Option SchedulerSpec
  deleted : Bool
  pauseFlag : Bool
  phase : ExperimentPhase
  nextStart : Int
  nextRecover : Int
  deriving Repr, DecidableEq

/-- Result of one Reconcile call (ctrl.Result plus error). -/
inductive RecResult
  | ok
  | err (msg : String)
  | requeueErr (msg : String)
  | requeueAfter (d : Int)
  deriving Repr, DecidableEq

/-- Outcome of one Reconcile call: whether the inner Recover / Apply were
invoked, the updated resource, and the returned result. -/
structure RecOutcome where
  recoverCalled : Bool
  applyCalled : Bool
  chaos : TwoPhaseChaos
  result : RecResult
  deriving Repr, DecidableEq

/-- Error message constant of the schedule guard in twophase Reconcile. -/
def errScheduleTooTight : String :=
  "nextRecover shouldn't be later than nextStart"

/-- Error message returned when GetScheduler() is nil. -/
def misdefinedScheduler : String :=
  "misdefined scheduler"

/-- Embedding of twophase.applyAction: calls the inner Apply (its result is
the applyRes parameter); on failure the phase becomes Failed, on success
Running. -/
def applyAction (c : TwoPhaseChaos) (applyRes : Option String) :
    TwoPhaseChaos × Option String :=
  match applyRes with
  | some e => ({ c with phase := .failed }, some e)
  | none => ({ c with phase := .running }, none)

/-- Embedding of twophase.Reconciler.Reconcile.  now is the sampled wall
clock; nextTimeFn models utils.NextTime on the resource's scheduler;
recoverRes / applyRes model the results of the inner Recover / Apply calls.
The final r.Update is assumed to succeed. -/
def reconcile (now : Int) (c : TwoPhaseChaos)
    (nextTimeFn : Int → Except String Int)
    (recoverRes applyRes : Option String) : RecOutcome :=
  match c.durationResult with
  | .error e => ⟨false, false, c, .err e⟩
  | .ok durOpt =>
    match c.scheduler with
    | none => ⟨false, false, c, .err misdefinedScheduler⟩
    | some _ =>
      let duration := durOpt.getD 0
      if c.deleted then
        match recoverRes with
        | some e => ⟨true, false, c, .requeueErr e⟩
        | none => ⟨true, false, { c with phase := .finished }, .ok⟩
      else if c.pauseFlag then
        if c.phase = .running then
          match recoverRes with
          | some e => ⟨true, false, c, .requeueErr e⟩
          | none => ⟨true, false, { c with phase := .paused }, .ok⟩
        else
          ⟨false, false, { c with phase := .paused }, .ok⟩
      else if c.nextRecover ≠ 0 ∧ c.nextRecover < now then
        if c.phase ≠ .paused then
          match recoverRes with
          | some e => ⟨true, false, c, .requeueErr e⟩
          | none => ⟨true, false, { c with nextRecover := 0, phase := .waiting }, .ok⟩
        else
          ⟨false, false, { c with nextRecover := 0, phase := .waiting }, .ok⟩
      else if c.phase = .paused ∧ c.nextRecover ≠ 0 ∧ now < c.nextRecover then
        match applyAction c applyRes with
        | (c', some e) => ⟨false, true, c', .requeueErr e⟩
        | (c', none) => ⟨false, true, c', .ok⟩
      else if c.nextStart < now then
        match nextTimeFn now with
        | .error e => ⟨false, false, c, .err e⟩
        | .ok ns =>
          let nr := now + duration
          if ns < nr then
            ⟨false, false, c, .err errScheduleTooTight⟩
          else
            match applyAction c applyRes with
            | (c', some e) => ⟨false, true, c', .requeueErr e⟩
            | (c', none) =>
              ⟨false, true, { c' with nextStart := ns, nextRecover := nr }, .ok⟩
      else
        let nextTime :=
          if c.nextRecover ≠ 0 ∧ c.nextRecover < c.nextStart then c.nextRecover
          else c.nextStart
        ⟨false, false, c, .requeueAfter (nextTime - now)⟩

/-- Helper: on a non-deleted, non-paused resource with no pending recover and
no resume pending, when the schedule branch is reached, reconcile reduces to
the guard-then-apply core. -/
theorem reconcile_schedule_branch (now : Int) (d : Option Int) (s : SchedulerSpec)
    (ph : ExperimentPhase) (nst nrc : Int)
    (f : Int → Except String Int) (recRes applyRes : Option String) (ns : Int)
    (hnr : ¬ (nrc ≠ 0 ∧ nrc < now))
    (hres : ¬ (ph = ExperimentPhase.paused ∧ nrc ≠ 0 ∧ now < nrc))
    (hst : nst < now)
    (hf : f now = .ok ns) :
    reconcile now ⟨.ok d, some s, false, false, ph, nst, nrc⟩ f recRes applyRes =
      (if ns < now + d.getD 0 then
        ⟨false, false, ⟨.ok d, some s, false, false, ph, nst, nrc⟩,
          .err errScheduleTooTight⟩
      else
        match applyRes with
        | some e =>
          ⟨false, true, ⟨.ok d, some s, false, false, .failed, nst, nrc⟩,
            .requeueErr e⟩
        | none =>
          ⟨false, true,
            ⟨.ok d, some s, false, false, .running, ns, now + d.getD 0⟩, .ok⟩) := by
  show (if (nrc ≠ 0 ∧ nrc < now) then _ else _) = _
  rw [if_neg hnr, if_neg hres, if_pos hst, hf]
  cases applyRes <;> rfl

/-- C1 counterexample input: a resource ready to be scheduled for which the
computed nextRecover equals the computed nextStart (now = 6, duration = 10,
next cron firing = 16). -/
def boundaryChaos : TwoPhaseChaos :=
  ⟨.ok (some 10), some ⟨"@every 10m"⟩, false, false, .waiting, 5, 0⟩

/-- C1 (counterexample): at the boundary nextRecover = nextStart the code
calls Apply and succeeds — it does not fail — refuting the claim that every
non-strict case, including equality, returns an error without calling Apply.
Here nextStart = nextTime(6) = 16 and nextRecover = 6 + 10 = 16. -/
theorem schedule_guard_boundary_calls_apply :
    (reconcile 6 boundaryChaos (fun _ => .ok 16) none none).applyCalled = true ∧
    (reconcile 6 boundaryChaos (fun _ => .ok 16) none none).result = .ok ∧
    (6 : Int) + 10 = 16 := by
  refine ⟨?_, ?_, by decide⟩ <;> rfl

/-- C1 (amended): in the schedule branch of the two-phase reconciler (reached
when the resource is not deleted, not paused, has no pending recover or
resume, and nextStart < now), with nextStart-prime the next cron firing and
nextRecover-prime = now + duration: the reconciler fails with the
schedule-too-tight error, without calling Apply and without updating
nextStart/nextRecover, exactly when nextStart-prime < nextRecover-prime
strictly; whenever nextRecover-prime ≤ nextStart-prime (including equality)
Apply is called, and on success nextStart/nextRecover are updated. -/
theorem schedule_guard_amended (now : Int) (d : Option Int) (s : SchedulerSpec)
    (ph : ExperimentPhase) (nst nrc : Int)
    (f : Int → Except String Int) (recRes applyRes : Option String) (ns : Int)
    (hnr : ¬ (nrc ≠ 0 ∧ nrc < now))
    (hres : ¬ (ph = ExperimentPhase.paused ∧ nrc ≠ 0 ∧ now < nrc))
    (hst : nst < now)
    (hf : f now = .ok ns) :
    (ns < now + d.getD 0 →
      reconcile now ⟨.ok d, some s, false, false, ph, nst, nrc⟩ f recRes applyRes =
        ⟨false, false, ⟨.ok d, some s, false, false, ph, nst, nrc⟩,
          .err errScheduleTooTight⟩) ∧
    (now + d.getD 0 ≤ ns →
      (reconcile now ⟨.ok d, some s, false, false, ph, nst, nrc⟩ f recRes
          applyRes).applyCalled = true ∧
      (applyRes = none →
        reconcile now ⟨.ok d, some s, false, false, ph, nst, nrc⟩ f recRes applyRes =
          ⟨false, true,
            ⟨.ok d, some s, false, false, .running, ns, now + d.getD 0⟩, .ok⟩)) := by
  rw [reconcile_schedule_branch now d s ph nst nrc f recRes applyRes ns hnr hres hst hf]
  constructor
  · intro h
    rw [if_pos h]
  · intro h
    rw [if_neg (not_lt.mpr h)]
    constructor
    · cases applyRes <;> rfl
    · intro ha
      subst ha
      rfl

/-- Witness for the amended C1 theorem at a concrete input: now = 10,
duration = 3, next firing = 20, so nextRecover = 13 ≤ 20 and Apply runs. -/
theorem schedule_guard_amended_witness :
    (reconcile 10 ⟨.ok (some 3), some ⟨"@every 1m"⟩, false, false, .waiting, 5, 0⟩
        (fun _ => .ok 20) none none).applyCalled = true := by
  have h := schedule_guard_amended 10 (some 3) ⟨"@every 1m"⟩ .waiting 5 0
    (fun _ => .ok 20) none none 20 (by decide) (by decide) (by decide) rfl
  exact (h.2 (by decide)).1

/-- C10 counterexample input: a deleted resource whose duration string does
not parse and whose scheduler is nil. -/
def badDurationChaos : TwoPhaseChaos :=
  ⟨.error "time: invalid duration", none, true, false, .running, 0, 0⟩

/-- C10 (counterexample): with GetScheduler() nil but GetDuration() failing,
Reconcile returns the duration parse error, not the misdefined-scheduler
error — refuting the claim that a nil scheduler always yields the
misdefined-scheduler error first.  (No Recover is called either way.) -/
theorem nil_scheduler_not_always_misdefined :
    (reconcile 5 badDurationChaos (fun _ => .error "no cron") none none).result =
      .err "time: invalid duration" ∧
    (reconcile 5 badDurationChaos (fun _ => .error "no cron") none none).result ≠
      .err misdefinedScheduler ∧
    (reconcile 5 badDurationChaos (fun _ => .error "no cron") none none).recoverCalled
      = false := by
  refine ⟨rfl, ?_, rfl⟩
  decide

/-- C10 (amended): whenever GetScheduler() is nil, Reconcile calls neither
Recover nor Apply — so a deleted resource without a scheduler never has
Recover called — and it returns the misdefined-scheduler error provided
GetDuration() succeeded (otherwise the duration parse error is returned
first).  Furthermore with a nil duration but non-nil scheduler, the duration
is treated as 0 seconds: the schedule branch sets nextRecover to now itself. -/
theorem nil_scheduler_amended (now : Int) (f : Int → Except String Int)
    (recRes applyRes : Option String) :
    (∀ c : TwoPhaseChaos, c.scheduler = none →
      (reconcile now c f recRes applyRes).recoverCalled = false ∧
      (reconcile now c f recRes applyRes).applyCalled = false ∧
      (∀ d, c.durationResult = .ok d →
        reconcile now c f recRes applyRes = ⟨false, false, c, .err misdefinedScheduler⟩) ∧
      (∀ e, c.durationResult = .error e →
        reconcile now c f recRes applyRes = ⟨false, false, c, .err e⟩)) ∧
    (∀ (s : SchedulerSpec) (ph : ExperimentPhase) (nst nrc ns : Int),
      ¬ (nrc ≠ 0 ∧ nrc < now) →
      ¬ (ph = ExperimentPhase.paused ∧ nrc ≠ 0 ∧ now < nrc) →
      nst < now → f now = .ok ns → now ≤ ns →
      reconcile now ⟨.ok none, some s, false, false, ph, nst, nrc⟩ f recRes none =
        ⟨false, true, ⟨.ok none, some s, false, false, .running, ns, now⟩, .ok⟩) := by
  constructor
  · intro c hs
    obtain ⟨dr, sch, dl, pf, ph, nst, nrc⟩ := c
    cases sch with
    | some s => exact absurd hs (by simp)
    | none =>
      cases dr with
      | error e =>
        refine ⟨rfl, rfl, ?_, ?_⟩
        · intro d hd
          exact absurd hd (by simp)
        · intro e' he
          injection he with h
          subst h
          rfl
      | ok d =>
        refine ⟨rfl, rfl, ?_, ?_⟩
        · intro d' hd
          injection hd with h
          subst h
          rfl
        · intro e' he
          exact absurd he (by simp)
  · intro s ph nst nrc ns hnr hres hst hf hle
    have h := reconcile_schedule_branch now none s ph nst nrc f recRes none ns
      hnr hres hst hf
    rw [h, if_neg (by simp; omega)]
    simp

/-- Witness for the amended C10 theorem at concrete inputs. -/
theorem nil_scheduler_amended_witness :
    reconcile 5 ⟨.ok (some 7), none, true, false, .running, 0, 0⟩
        (fun _ => .ok 9) none none =
      ⟨false, false, ⟨.ok (some 7), none, true, false, .running, 0, 0⟩,
        .err misdefinedScheduler⟩ ∧
    reconcile 5 ⟨.ok none, some ⟨"@every 1m"⟩, false, false, .waiting, 1, 0⟩
        (fun _ => .ok 9) none none =
      ⟨false, true, ⟨.ok none, some ⟨"@every 1m"⟩, false, false, .running, 9, 5⟩,
        .ok⟩ := by
  constructor
  · exact ((nil_scheduler_amended 5 (fun _ => .ok 9) none none).1
      ⟨.ok (some 7), none, true, false, .running, 0, 0⟩ rfl).2.2.1 (some 7) rfl
  · exact (nil_scheduler_amended 5 (fun _ => .ok 9) none none).2
      ⟨"@every 1m"⟩ .waiting 1 0 9 (by decide) (by decide) (by decide) rfl (by decide)

/- ===================== C8 : pod-kill Apply / Recover ================== -/

/-- The pod fields read by the pod-kill reconciler. -/
structure PodInfo where
  ns : String
  name : String
  hostIP : String
  podIP : String
  deriving Repr, DecidableEq

/-- One entry of status.Experiment.Pods (v1alpha1.PodStatus). -/
structure PodStatusRecord where
  ns : String
  name : String
  hostIP : String
  podIP : String
  action : String
  message : String
  deriving Repr, DecidableEq

/-- A delete issued against the API server, with its grace period
(client.DeleteOptions.GracePeriodSeconds; new(int64) is the pointer to 0). -/
structure DeleteOp where
  pod : PodInfo
  gracePeriodSeconds : Int
  deriving Repr, DecidableEq

/-- Message constant podKillActionMsg. -/
def podKillActionMsg : String := "delete pod"

/-- Embedding of podkill.Reconciler.Apply on the already-selected pods:
issues one delete per pod with grace period 0 (all deletes are attempted by
the errgroup); deleteRes models the client's per-pod delete result.  On any
failure the first error is returned and no records are written; on success
one PodStatus record per pod is appended with message "delete pod". -/
def podKillApply (pods : List PodInfo) (action : String)
    (deleteRes : PodInfo → Option String) :
    List DeleteOp × Except String (List PodStatusRecord) :=
  let ops := pods.map (fun p => ⟨p, 0⟩)
  match pods.findSome? deleteRes with
  | some e => (ops, .error e)
  | none =>
    (ops, .ok (pods.map (fun p =>
      ⟨p.ns, p.name, p.hostIP, p.podIP, action, podKillActionMsg⟩)))

/-- Embedding of podkill.Reconciler.Recover: returns nil and does not touch
the world state. -/
def podKillRecover {σ : Type} (world : σ) : σ × Except String Unit :=
  (world, .ok ())

/-- C8: pod-kill Apply deletes every selected pod with grace period exactly
0; on success it records exactly one PodStatus per deleted pod, each with
message "delete pod"; and Recover is a no-op that always returns nil. -/
theorem podkill_grace_zero_and_noop_recover {σ : Type}
    (pods : List PodInfo) (action : String) (deleteRes : PodInfo → Option String)
    (recs : List PodStatusRecord) (world : σ)
    (hok : (podKillApply pods action deleteRes).2 = .ok recs) :
    ((podKillApply pods action deleteRes).1.map (fun op => op.pod) = pods ∧
      ∀ op ∈ (podKillApply pods action deleteRes).1, op.gracePeriodSeconds = 0) ∧
    (recs.length = pods.length ∧ ∀ r ∈ recs, r.message = podKillActionMsg) ∧
    podKillRecover world = (world, .ok ()) := by
  refine ⟨⟨?_, ?_⟩, ?_, rfl⟩
  · clear hok
    unfold podKillApply
    cases pods.findSome? deleteRes <;>
      · show (pods.map fun p => (⟨p, 0⟩ : DeleteOp)).map (fun op => op.pod) = pods
        induction pods with
        | nil => rfl
        | cons a t ih => simpa using ih
  · intro op hop
    simp only [podKillApply] at hop
    rcases h : pods.findSome? deleteRes with _ | e <;>
      · rw [h] at hop
        simp at hop
        obtain ⟨p, _, rfl⟩ := hop
        rfl
  · unfold podKillApply at hok
    rcases h : pods.findSome? deleteRes with _ | e <;> rw [h] at hok
    · simp at hok
      subst hok
      constructor
      · simp
      · intro r hr
        simp at hr
        obtain ⟨p, _, rfl⟩ := hr
        rfl
    · cases hok

/-- Witness for C8 at a concrete input: two pods, all deletes succeed. -/
theorem podkill_witness :
    (podKillApply
        [⟨"ns1", "a", "h1", "i1"⟩, ⟨"ns2", "b", "h2", "i2"⟩] "pod-kill"
        (fun _ => none)).2 =
      .ok [⟨"ns1", "a", "h1", "i1", "pod-kill", "delete pod"⟩,
           ⟨"ns2", "b", "h2", "i2", "pod-kill", "delete pod"⟩] ∧
    (podKillApply
        [⟨"ns1", "a", "h1", "i1"⟩, ⟨"ns2", "b", "h2", "i2"⟩] "pod-kill"
        (fun _ => none)).1.map (fun op => op.gracePeriodSeconds) = [0, 0] ∧
    podKillRecover (37 : Nat) = (37, .ok ()) := by
  have h := podkill_grace_zero_and_noop_recover
    [⟨"ns1", "a", "h1", "i1"⟩, ⟨"ns2", "b", "h2", "i2"⟩] "pod-kill"
    (fun _ => none)
    [⟨"ns1", "a", "h1", "i1", "pod-kill", "delete pod"⟩,
     ⟨"ns2", "b", "h2", "i2", "pod-kill", "delete pod"⟩]
    (37 : Nat) rfl
  exact ⟨rfl, rfl, h.2.2⟩


/- ===================== C3 : pod-failure failPod ======================= -/

/-- The sentinel image used by pod-failure (constant pauseImage). -/
def pauseImage : String := "gcr.io/google-containers/pause:latest"

/-- A container: name and image. -/
structure Container where
  name : String
  image : String
  deriving Repr, DecidableEq

/-- The pod fields touched by failPod: the annotation map (modelled as an
association list) and the two container lists. -/
structure Pod where
  anns : List (String × String)
  initContainers : List Container
  containers : List Container
  deriving Repr, DecidableEq

/-- Lookup in the annotation map (Go map index with ok flag). -/
def lookupAnn : List (String × String) → String → Option String
  | [], _ => none
  | (k', v) :: rest, k => if k' = k then some v else lookupAnn rest k

/-- Assignment into the annotation map (Go map assignment). -/
def setAnn : List (String × String) → String → String → List (String × String)
  | [], k, v => [(k, v)]
  | (k', v') :: rest, k, v =>
    if k' = k then (k, v) :: rest else (k', v') :: setAnn rest k v

/-- Modelled from the spec: utils.GenAnnotationKeyForImage is not under src;
the spec records the per-container original image under the annotation key
<chaos>/<container>. -/
def genAnnotationKeyForImage (chaos container : String) : String :=
  chaos ++ "/" ++ container

/-- One loop of failPod over a container list, threading the annotation map:
a container whose annotation key is present is skipped; otherwise the
original image is stored under the key and the image replaced by the pause
sentinel. -/
def failContainers (chaos : String) :
    List (String × String) → List Container →
    List (String × String) × List Container
  | anns, [] => (anns, [])
  | anns, c :: rest =>
    match lookupAnn anns (genAnnotationKeyForImage chaos c.name) with
    | some _ =>
      let r := failContainers chaos anns rest
      (r.1, c :: r.2)
    | none =>
      let r := failContainers chaos
        (setAnn anns (genAnnotationKeyForImage chaos c.name) c.image) rest
      (r.1, { c with image := pauseImage } :: r.2)

/-- Embedding of podfailure.Reconciler.failPod: processes the init containers
and then the main containers. -/
def failPod (chaos : String) (p : Pod) : Pod :=
  let ri := failContainers chaos p.anns p.initContainers
  let rm := failContainers chaos ri.1 p.containers
  ⟨rm.1, ri.2, rm.2⟩

theorem lookupAnn_setAnn_self (anns : List (String × String)) (k v : String) :
    lookupAnn (setAnn anns k v) k = some v := by
  induction anns with
  | nil => simp [setAnn, lookupAnn]
  | cons a rest ih =>
    obtain ⟨k', v'⟩ := a
    by_cases h : k' = k <;> simp [setAnn, lookupAnn, h, ih]

theorem lookupAnn_setAnn_ne (anns : List (String × String)) (k v m : String)
    (h : m ≠ k) : lookupAnn (setAnn anns k v) m = lookupAnn anns m := by
  induction anns with
  | nil => simp [setAnn, lookupAnn, Ne.symm h]
  | cons a rest ih =>
    obtain ⟨k', v'⟩ := a
    by_cases h1 : k' = k
    · subst h1
      simp [setAnn, lookupAnn, Ne.symm h, h]
    · by_cases h2 : k' = m <;> simp [setAnn, lookupAnn, h1, h2, ih, h]

/-- Present bindings are never changed by failContainers: the stored original
image is never overwritten. -/
theorem failContainers_preserves_present (chaos : String) (k v : String) :
    ∀ (cs : List Container) (anns : List (String × String)),
    lookupAnn anns k = some v →
    lookupAnn (failContainers chaos anns cs).1 k = some v := by
  intro cs
  induction cs with
  | nil => intro anns h; simpa [failContainers] using h
  | cons c rest ih =>
    intro anns h
    rcases hl : lookupAnn anns (genAnnotationKeyForImage chaos c.name) with _ | w
    · have hk : k ≠ genAnnotationKeyForImage chaos c.name := by
        intro he
        rw [he, hl] at h
        cases h
      simp only [failContainers, hl]
      exact ih _ (by rw [lookupAnn_setAnn_ne _ _ _ _ hk]; exact h)
    · simp only [failContainers, hl]
      exact ih _ h

/-- After failContainers every processed container's key is present. -/
theorem failContainers_key_present (chaos : String) :
    ∀ (cs : List Container) (anns : List (String × String)),
    ∀ c ∈ cs, (lookupAnn (failContainers chaos anns cs).1
      (genAnnotationKeyForImage chaos c.name)).isSome := by
  intro cs
  induction cs with
  | nil => intro anns c hc; cases hc
  | cons c0 rest ih =>
    intro anns c hc
    rcases List.mem_cons.mp hc with rfl | hc
    · rcases hl : lookupAnn anns (genAnnotationKeyForImage chaos c.name) with _ | w
      · simp only [failContainers, hl]
        have := failContainers_preserves_present chaos
          (genAnnotationKeyForImage chaos c.name) c.image rest
          (setAnn anns (genAnnotationKeyForImage chaos c.name) c.image)
          (lookupAnn_setAnn_self _ _ _)
        simp [this]
      · simp only [failContainers, hl]
        have := failContainers_preserves_present chaos
          (genAnnotationKeyForImage chaos c.name) w rest anns hl
        simp [this]
    · rcases hl : lookupAnn anns (genAnnotationKeyForImage chaos c0.name) with _ | w <;>
        · simp only [failContainers, hl]
          exact ih _ c hc

/-- failContainers does not change container names. -/
theorem failContainers_names (chaos : String) :
    ∀ (cs : List Container) (anns : List (String × String)),
    ((failContainers chaos anns cs).2).map (fun c => c.name) =
      cs.map (fun c => c.name) := by
  intro cs
  induction cs with
  | nil => intro anns; rfl
  | cons c rest ih =>
    intro anns
    rcases hl : lookupAnn anns (genAnnotationKeyForImage chaos c.name) with _ | w <;>
      · simp only [failContainers, hl]
        simp [ih]

/-- When every container's key is already present, failContainers is a no-op. -/
theorem failContainers_noop (chaos : String) :
    ∀ (cs : List Container) (anns : List (String × String)),
    (∀ c ∈ cs, (lookupAnn anns (genAnnotationKeyForImage chaos c.name)).isSome) →
    failContainers chaos anns cs = (anns, cs) := by
  intro cs
  induction cs with
  | nil => intro anns _; rfl
  | cons c rest ih =>
    intro anns h
    have hc := h c (by simp)
    rcases hl : lookupAnn anns (genAnnotationKeyForImage chaos c.name) with _ | w
    · rw [hl] at hc
      cases hc
    · simp only [failContainers, hl]
      rw [ih anns (fun c' hc' => h c' (by simp [hc']))]

/-- The fresh-key run of failContainers: with pairwise distinct keys none of
which is present, every container's image becomes the pause image and its
original image is stored under its key; other keys are untouched. -/
theorem failContainers_fresh (chaos : String) :
    ∀ (cs : List Container) (anns : List (String × String)),
    (cs.map (fun c => genAnnotationKeyForImage chaos c.name)).Nodup →
    (∀ c ∈ cs, lookupAnn anns (genAnnotationKeyForImage chaos c.name) = none) →
    (failContainers chaos anns cs).2 =
      cs.map (fun c => { c with image := pauseImage }) ∧
    (∀ c ∈ cs,
      lookupAnn (failContainers chaos anns cs).1
        (genAnnotationKeyForImage chaos c.name) = some c.image) ∧
    (∀ k, (∀ c ∈ cs, k ≠ genAnnotationKeyForImage chaos c.name) →
      lookupAnn (failContainers chaos anns cs).1 k = lookupAnn anns k) := by
  intro cs
  induction cs with
  | nil =>
    exact fun anns _ _ =>
      ⟨rfl, fun c hc => absurd hc (by simp), fun k _ => rfl⟩
  | cons c rest ih =>
    intro anns hnodup hfresh
    have hl : lookupAnn anns (genAnnotationKeyForImage chaos c.name) = none :=
      hfresh c (by simp)
    rw [List.map_cons, List.nodup_cons] at hnodup
    obtain ⟨hnotmem, hnd⟩ := hnodup
    have hne : ∀ c' ∈ rest,
        genAnnotationKeyForImage chaos c.name ≠
          genAnnotationKeyForImage chaos c'.name := by
      intro c' hc' he
      exact hnotmem
        (he ▸ List.mem_map_of_mem (fun c => genAnnotationKeyForImage chaos c.name) hc')
    have hfresh' : ∀ c' ∈ rest,
        lookupAnn (setAnn anns (genAnnotationKeyForImage chaos c.name) c.image)
          (genAnnotationKeyForImage chaos c'.name) = none := by
      intro c' hc'
      rw [lookupAnn_setAnn_ne _ _ _ _ (Ne.symm (hne c' hc'))]
      exact hfresh c' (by simp [hc'])
    obtain ⟨ih1, ih2, ih3⟩ := ih
      (setAnn anns (genAnnotationKeyForImage chaos c.name) c.image) hnd hfresh'
    refine ⟨?_, ?_, ?_⟩
    · simp only [failContainers, hl]
      simp [ih1]
    · intro c' hc'
      rcases List.mem_cons.mp hc' with rfl | hc'
      · simp only [failContainers, hl]
        have heq := ih3 (genAnnotationKeyForImage chaos c'.name)
          (fun c'' hc'' => hne c'' hc'')
        simpa [heq] using lookupAnn_setAnn_self anns
          (genAnnotationKeyForImage chaos c'.name) c'.image
      · simp only [failContainers, hl]
        simpa using ih2 c' hc'
    · intro k hk
      simp only [failContainers, hl]
      have h1 := ih3 k (fun c' hc' => hk c' (by simp [hc']))
      have h2 : k ≠ genAnnotationKeyForImage chaos c.name := hk c (by simp)
      simpa [lookupAnn_setAnn_ne _ _ _ _ h2] using h1

/-- C3: pod-failure Apply is idempotent per container.  For a pod in its
first Apply (per-container annotation keys pairwise distinct and none yet
present), failPod replaces every init and main container image with the
pause sentinel and stores the original image under the container's key; and
for every pod whatsoever, a repeated failPod changes nothing — in particular
a preserved original image is never overwritten by the sentinel. -/
theorem podfailure_idempotent (chaos : String) (p : Pod)
    (hnodup : ((p.initContainers ++ p.containers).map
      (fun c => genAnnotationKeyForImage chaos c.name)).Nodup)
    (hfresh : ∀ c ∈ p.initContainers ++ p.containers,
      lookupAnn p.anns (genAnnotationKeyForImage chaos c.name) = none) :
    (failPod chaos p).initContainers =
      p.initContainers.map (fun c => { c with image := pauseImage }) ∧
    (failPod chaos p).containers =
      p.containers.map (fun c => { c with image := pauseImage }) ∧
    (∀ c ∈ p.initContainers ++ p.containers,
      lookupAnn (failPod chaos p).anns
        (genAnnotationKeyForImage chaos c.name) = some c.image) ∧
    (∀ q : Pod, failPod chaos (failPod chaos q) = failPod chaos q) := by
  rw [List.map_append, List.nodup_append] at hnodup
  obtain ⟨hndI, hndM, hdisj⟩ := hnodup
  have hfreshI : ∀ c ∈ p.initContainers,
      lookupAnn p.anns (genAnnotationKeyForImage chaos c.name) = none :=
    fun c hc => hfresh c (by simp [hc])
  obtain ⟨i1, i2, i3⟩ := failContainers_fresh chaos p.initContainers p.anns hndI hfreshI
  have hfreshM : ∀ c ∈ p.containers,
      lookupAnn (failContainers chaos p.anns p.initContainers).1
        (genAnnotationKeyForImage chaos c.name) = none := by
    intro c hc
    rw [i3 (genAnnotationKeyForImage chaos c.name) (fun c' hc' => by
      intro he
      exact hdisj
        (he ▸ List.mem_map_of_mem (fun c => genAnnotationKeyForImage chaos c.name) hc')
        (List.mem_map_of_mem (fun c => genAnnotationKeyForImage chaos c.name) hc))]
    exact hfresh c (by simp [hc])
  obtain ⟨m1, m2, m3⟩ := failContainers_fresh chaos p.containers
    (failContainers chaos p.anns p.initContainers).1 hndM hfreshM
  refine ⟨by simpa [failPod] using i1, by simpa [failPod] using m1, ?_, ?_⟩
  · intro c hc
    rcases List.mem_append.mp hc with hc | hc
    · show lookupAnn (failContainers chaos
        (failContainers chaos p.anns p.initContainers).1 p.containers).1
          (genAnnotationKeyForImage chaos c.name) = some c.image
      exact failContainers_preserves_present chaos _ _ _ _ (i2 c hc)
    · exact m2 c hc
  · intro q
    have hIkeys : ∀ c ∈ (failPod chaos q).initContainers,
        (lookupAnn (failPod chaos q).anns
          (genAnnotationKeyForImage chaos c.name)).isSome := by
      intro c hc
      have hname : c.name ∈ q.initContainers.map (fun c => c.name) := by
        rw [← failContainers_names chaos q.initContainers q.anns]
        exact List.mem_map_of_mem _ hc
      obtain ⟨c0, hc0, hcn⟩ := List.mem_map.mp hname
      have hp := failContainers_key_present chaos q.initContainers q.anns c0 hc0
      rw [show genAnnotationKeyForImage chaos c.name =
        genAnnotationKeyForImage chaos c0.name by rw [hcn]]
      rcases ho : lookupAnn (failContainers chaos q.anns q.initContainers).1
          (genAnnotationKeyForImage chaos c0.name) with _ | v
      · rw [ho] at hp
        cases hp
      · have := failContainers_preserves_present chaos
          (genAnnotationKeyForImage chaos c0.name) v
          q.containers (failContainers chaos q.anns q.initContainers).1 ho
        show (lookupAnn (failContainers chaos
          (failContainers chaos q.anns q.initContainers).1 q.containers).1
            (genAnnotationKeyForImage chaos c0.name)).isSome
        simp [this]
    have hMkeys : ∀ c ∈ (failPod chaos q).containers,
        (lookupAnn (failPod chaos q).anns
          (genAnnotationKeyForImage chaos c.name)).isSome := by
      intro c hc
      have hname : c.name ∈ q.containers.map (fun c => c.name) := by
        rw [← failContainers_names chaos q.containers
          (failContainers chaos q.anns q.initContainers).1]
        exact List.mem_map_of_mem _ hc
      obtain ⟨c0, hc0, hcn⟩ := List.mem_map.mp hname
      have hp := failContainers_key_present chaos q.containers
        (failContainers chaos q.anns q.initContainers).1 c0 hc0
      rw [show genAnnotationKeyForImage chaos c.name =
        genAnnotationKeyForImage chaos c0.name by rw [hcn]]
      exact hp
    rcases hr : failPod chaos q with ⟨ra, ri2, rm2⟩
    simp only [hr] at hIkeys hMkeys
    simp [failPod, failContainers_noop chaos ri2 ra hIkeys,
      failContainers_noop chaos rm2 ra hMkeys]

/-- Witness for C3 at a concrete pod: one init container and one main
container, no pre-existing annotations. -/
theorem podfailure_witness :
    failPod "podchaos-x" ⟨[], [⟨"init0", "busybox:1"⟩], [⟨"app", "nginx:2"⟩]⟩ =
      ⟨[("podchaos-x/init0", "busybox:1"), ("podchaos-x/app", "nginx:2")],
        [⟨"init0", pauseImage⟩], [⟨"app", pauseImage⟩]⟩ ∧
    failPod "podchaos-x"
        (failPod "podchaos-x" ⟨[], [⟨"init0", "busybox:1"⟩], [⟨"app", "nginx:2"⟩]⟩) =
      failPod "podchaos-x" ⟨[], [⟨"init0", "busybox:1"⟩], [⟨"app", "nginx:2"⟩]⟩ := by
  have h := podfailure_idempotent "podchaos-x"
    ⟨[], [⟨"init0", "busybox:1"⟩], [⟨"app", "nginx:2"⟩]⟩
    (by decide) (by intro c hc; rfl)
  exact ⟨rfl, h.2.2.2 ⟨[], [⟨"init0", "busybox:1"⟩], [⟨"app", "nginx:2"⟩]⟩⟩


/- ===================== C6 : netem argument construction =============== -/

/-- The pb.Netem message: uint32 fields become Nat, float32 fields become
Rat. -/
structure Netem where
  time : Nat
  jitter : Nat
  delayCorr : Rat
  limit : Nat
  loss : Rat
  lossCorr : Rat
  gap : Nat
  duplicate : Rat
  duplicateCorr : Rat
  reorder : Rat
  reorderCorr : Rat
  corrupt : Rat
  corruptCorr : Rat
  deriving Repr, DecidableEq

/-- Rendering of a float argument (stand-in for the Go %f verb; C6 concerns
which parameters appear and in what order, not the digits). -/
def fmtF (q : Rat) : String :=
  toString q.num ++ "/" ++ toString q.den

/-
  convertNetemToArgs works at the token level: each Go Sprintf append of
  "%s tok..." contributes its tokens to the accumulated argument list, one
  step function per parameter group, mirroring the sequential mutation of
  `args` in the Go code.  The final split-on-space / drop-empty-parts / join
  step of the Go code is the identity on this token list.
-/

/-- Jitter append inside the delay branch: jitter plus its correlation. -/
def netemJitterStep (args : List String) (n : Netem) : List String :=
  if n.jitter > 0 then
    (if n.delayCorr > 0 then (args ++ [toString n.jitter]) ++ [fmtF n.delayCorr]
     else args ++ [toString n.jitter])
  else args

/-- Reorder correlation append inside the reorder branch. -/
def netemReorderCorrStep (args : List String) (n : Netem) : List String :=
  if n.reorderCorr > 0 then args ++ [fmtF n.reorderCorr] else args

/-- Gap append inside the reorder branch. -/
def netemGapStep (args : List String) (n : Netem) : List String :=
  if n.gap > 0 then args ++ ["gap", toString n.gap] else args

/-- Reorder group (only entered inside the delay branch). -/
def netemReorderStep (args : List String) (n : Netem) : List String :=
  if n.reorder > 0 then
    netemGapStep (netemReorderCorrStep (args ++ ["reorder", fmtF n.reorder]) n) n
  else args

/-- The whole delay branch: delay, jitter group and reorder group, or
nothing when Time is not positive. -/
def netemDelayPart (n : Netem) : List String :=
  if n.time > 0 then
    netemReorderStep (netemJitterStep ["delay", toString n.time] n) n
  else []

/-- Limit append. -/
def netemLimitStep (args : List String) (n : Netem) : List String :=
  if n.limit > 0 then args ++ ["limit", toString n.limit] else args

/-- Loss group: loss plus its correlation. -/
def netemLossStep (args : List String) (n : Netem) : List String :=
  if n.loss > 0 then
    (if n.lossCorr > 0 then (args ++ ["loss", fmtF n.loss]) ++ [fmtF n.lossCorr]
     else args ++ ["loss", fmtF n.loss])
  else args

/-- Duplicate group: duplicate plus its correlation. -/
def netemDuplicateStep (args : List String) (n : Netem) : List String :=
  if n.duplicate > 0 then
    (if n.duplicateCorr > 0 then
      (args ++ ["duplicate", fmtF n.duplicate]) ++ [fmtF n.duplicateCorr]
     else args ++ ["duplicate", fmtF n.duplicate])
  else args

/-- Corrupt group: corrupt plus its correlation. -/
def netemCorruptStep (args : List String) (n : Netem) : List String :=
  if n.corrupt > 0 then
    (if n.corruptCorr > 0 then
      (args ++ ["corrupt", fmtF n.corrupt]) ++ [fmtF n.corruptCorr]
     else args ++ ["corrupt", fmtF n.corrupt])
  else args

/-- Embedding of convertNetemToArgs: the delay branch followed by the limit,
loss, duplicate and corrupt appends, in the order of the Go code. -/
def convertNetemToArgs (n : Netem) : List String :=
  netemCorruptStep
    (netemDuplicateStep
      (netemLossStep
        (netemLimitStep (netemDelayPart n) n) n) n) n

/-- The argument list the spec's grammar prescribes, written as a flat
concatenation of conditional groups in the fixed order
delay [jitter [delay-corr]] [reorder [reorder-corr] [gap]] [limit]
[loss [loss-corr]] [duplicate [duplicate-corr]] [corrupt [corrupt-corr]],
where the jitter and reorder groups require a positive delay and every
correlation requires its primary parameter positive. -/
def netemGrammarArgs (n : Netem) : List String :=
  (if n.time > 0 then ["delay", toString n.time] else [])
  ++ (if n.time > 0 ∧ n.jitter > 0 then [toString n.jitter] else [])
  ++ (if n.time > 0 ∧ n.jitter > 0 ∧ n.delayCorr > 0 then [fmtF n.delayCorr] else [])
  ++ (if n.time > 0 ∧ n.reorder > 0 then ["reorder", fmtF n.reorder] else [])
  ++ (if n.time > 0 ∧ n.reorder > 0 ∧ n.reorderCorr > 0 then [fmtF n.reorderCorr] else [])
  ++ (if n.time > 0 ∧ n.reorder > 0 ∧ n.gap > 0 then ["gap", toString n.gap] else [])
  ++ (if n.limit > 0 then ["limit", toString n.limit] else [])
  ++ (if n.loss > 0 then ["loss", fmtF n.loss] else [])
  ++ (if n.loss > 0 ∧ n.lossCorr > 0 then [fmtF n.lossCorr] else [])
  ++ (if n.duplicate > 0 then ["duplicate", fmtF n.duplicate] else [])
  ++ (if n.duplicate > 0 ∧ n.duplicateCorr > 0 then [fmtF n.duplicateCorr] else [])
  ++ (if n.corrupt > 0 then ["corrupt", fmtF n.corrupt] else [])
  ++ (if n.corrupt > 0 ∧ n.corruptCorr > 0 then [fmtF n.corruptCorr] else [])

theorem netemDelayPart_eq (n : Netem) :
    netemDelayPart n =
      (if n.time > 0 then ["delay", toString n.time] else [])
      ++ (if n.time > 0 ∧ n.jitter > 0 then [toString n.jitter] else [])
      ++ (if n.time > 0 ∧ n.jitter > 0 ∧ n.delayCorr > 0 then [fmtF n.delayCorr] else [])
      ++ (if n.time > 0 ∧ n.reorder > 0 then ["reorder", fmtF n.reorder] else [])
      ++ (if n.time > 0 ∧ n.reorder > 0 ∧ n.reorderCorr > 0 then [fmtF n.reorderCorr] else [])
      ++ (if n.time > 0 ∧ n.reorder > 0 ∧ n.gap > 0 then ["gap", toString n.gap] else []) := by
  unfold netemDelayPart netemReorderStep netemGapStep netemReorderCorrStep netemJitterStep
  by_cases ht : n.time > 0 <;>
    by_cases hj : n.jitter > 0 <;>
      by_cases hdc : n.delayCorr > 0 <;>
        by_cases hr : n.reorder > 0 <;>
          by_cases hrc : n.reorderCorr > 0 <;>
            by_cases hg : n.gap > 0 <;>
              simp [ht, hj, hdc, hr, hrc, hg]

theorem netemLimitStep_eq (args : List String) (n : Netem) :
    netemLimitStep args n =
      args ++ (if n.limit > 0 then ["limit", toString n.limit] else []) := by
  unfold netemLimitStep
  by_cases h : n.limit > 0 <;> simp [h]

theorem netemLossStep_eq (args : List String) (n : Netem) :
    netemLossStep args n =
      args ++ ((if n.loss > 0 then ["loss", fmtF n.loss] else [])
        ++ (if n.loss > 0 ∧ n.lossCorr > 0 then [fmtF n.lossCorr] else [])) := by
  unfold netemLossStep
  by_cases h1 : n.loss > 0 <;> by_cases h2 : n.lossCorr > 0 <;> simp [h1, h2]

theorem netemDuplicateStep_eq (args : List String) (n : Netem) :
    netemDuplicateStep args n =
      args ++ ((if n.duplicate > 0 then ["duplicate", fmtF n.duplicate] else [])
        ++ (if n.duplicate > 0 ∧ n.duplicateCorr > 0 then [fmtF n.duplicateCorr] else [])) := by
  unfold netemDuplicateStep
  by_cases h1 : n.duplicate > 0 <;> by_cases h2 : n.duplicateCorr > 0 <;> simp [h1, h2]

theorem netemCorruptStep_eq (args : List String) (n : Netem) :
    netemCorruptStep args n =
      args ++ ((if n.corrupt > 0 then ["corrupt", fmtF n.corrupt] else [])
        ++ (if n.corrupt > 0 ∧ n.corruptCorr > 0 then [fmtF n.corruptCorr] else [])) := by
  unfold netemCorruptStep
  by_cases h1 : n.corrupt > 0 <;> by_cases h2 : n.corruptCorr > 0 <;> simp [h1, h2]

/-- C6: the netem argument list built by convertNetemToArgs is exactly the
spec's grammar: present (positive) parameters in the fixed order, the
jitter/delay-correlation and reorder groups only with a positive delay, and
each correlation only with its primary parameter positive. -/
theorem netem_args_follow_grammar (n : Netem) :
    convertNetemToArgs n = netemGrammarArgs n := by
  unfold convertNetemToArgs netemGrammarArgs
  rw [netemCorruptStep_eq, netemDuplicateStep_eq, netemLossStep_eq,
    netemLimitStep_eq, netemDelayPart_eq]
  simp [List.append_assoc]

/- ===================== C7 : iptables chains =========================== -/

/-- One iptables chain inside the target network namespace: its name and its
appended rules (as "-A ..." command lines, the form iptables -S prints). -/
structure IptChain where
  name : String
  rules : List String
  deriving Repr, DecidableEq

/-- A pb.Chain of the SetIptablesChains request.  The protobuf enum
Chain_Direction is an int32: 0 = INPUT, 1 = OUTPUT, anything else invalid. -/
structure PbChain where
  name : String
  direction : Nat
  ipsets : List String
  deriving Repr, DecidableEq

/-- Chain lookup in the namespace state (iptables -S <name>). -/
def getChain : List IptChain → String → Option (List String)
  | [], _ => none
  | c :: rest, n => if c.name = n then some c.rules else getChain rest n

/-- Replace the rules of an existing chain. -/
def setChainRules : List IptChain → String → List String → List IptChain
  | [], _, _ => []
  | c :: rest, n, rs =>
    if c.name = n then ⟨n, rs⟩ :: rest else c :: setChainRules rest n rs

/-- Embedding of iptablesClient.ensureRule: list the chain, and append the
rule only when it is not already present.  (The Go containment test is a
substring check on the -S output; it is modelled as rule membership.)  A
missing chain makes the Go call fail; every call site below either just
created the chain or relies on a stock chain, so the model keeps the state
unchanged in that case. -/
def ensureRule (s : List IptChain) (chainName rule : String) : List IptChain :=
  match getChain s chainName with
  | none => s
  | some rs => if rule ∈ rs then s else setChainRules s chainName (rs ++ [rule])

/-- Embedding of iptablesClient.createNewChain + deleteAndWriteRules: create
the chain if missing (tolerating "iptables: Chain already exists."), flush
it, and write the given rules through ensureRule. -/
def createNewChain (s : List IptChain) (c : IptChain) : List IptChain :=
  let s1 := if (getChain s c.name).isSome then s else s ++ [⟨c.name, []⟩]
  let s2 := setChainRules s1 c.name []
  c.rules.foldl (fun st r => ensureRule st c.name r) s2

/-- Embedding of iptablesClient.initializeEnv: create the CHAOS-INPUT and
CHAOS-OUTPUT chains (with empty bodies) and hook them from the stock INPUT
and OUTPUT chains. -/
def initializeEnv (s : List IptChain) : List IptChain :=
  let s1 := ensureRule (createNewChain s ⟨"CHAOS-INPUT", []⟩)
    "INPUT" "-A INPUT -j CHAOS-INPUT"
  ensureRule (createNewChain s1 ⟨"CHAOS-OUTPUT", []⟩)
    "OUTPUT" "-A OUTPUT -j CHAOS-OUTPUT"

/-- The DROP rule written for one ipset of a chain. -/
def dropRule (chainName ipset matchPart : String) : String :=
  "-A " ++ chainName ++ " -m set --match-set " ++ ipset ++ " " ++ matchPart
    ++ " -j DROP -w 5"

/-- The hook rule from a CHAOS top-level chain into a child chain. -/
def chaosHook (target chainName : String) : String :=
  "-A " ++ target ++ " -j " ++ chainName

/-- Embedding of iptablesClient.setIptablesChain: src matching for INPUT
chains, dst for OUTPUT chains, an error for any other direction; the chain
is (re)created with one DROP rule per ipset and hooked from the matching
CHAOS top-level chain. -/
def setIptablesChain (s : List IptChain) (c : PbChain) :
    Except String (List IptChain) :=
  if c.direction = 0 then
    .ok (ensureRule
      (createNewChain s ⟨c.name, c.ipsets.map (fun i => dropRule c.name i "src")⟩)
      "CHAOS-INPUT" (chaosHook "CHAOS-INPUT" c.name))
  else if c.direction = 1 then
    .ok (ensureRule
      (createNewChain s ⟨c.name, c.ipsets.map (fun i => dropRule c.name i "dst")⟩)
      "CHAOS-OUTPUT" (chaosHook "CHAOS-OUTPUT" c.name))
  else
    .error ("unknown chain direction " ++ toString c.direction)

/-- The loop of iptablesClient.setIptablesChains. -/
def setIptablesChainsLoop : List IptChain → List PbChain →
    Except String (List IptChain)
  | s, [] => .ok s
  | s, c :: rest =>
    match setIptablesChain s c with
    | .error e => .error e
    | .ok s' => setIptablesChainsLoop s' rest

/-- Embedding of daemonServer.SetIptablesChains (after pid and namespace
resolution): initializeEnv followed by the per-chain loop. -/
def setIptablesChainsRequest (s : List IptChain) (chains : List PbChain) :
    Except String (List IptChain) :=
  setIptablesChainsLoop (initializeEnv s) chains

/-- The successful branch of setIptablesChain as a pure state transformer. -/
def setIptablesChainOk (s : List IptChain) (c : PbChain) : List IptChain :=
  if c.direction = 0 then
    ensureRule
      (createNewChain s ⟨c.name, c.ipsets.map (fun i => dropRule c.name i "src")⟩)
      "CHAOS-INPUT" (chaosHook "CHAOS-INPUT" c.name)
  else
    ensureRule
      (createNewChain s ⟨c.name, c.ipsets.map (fun i => dropRule c.name i "dst")⟩)
      "CHAOS-OUTPUT" (chaosHook "CHAOS-OUTPUT" c.name)

/-- First-occurrence deduplication, as performed by writing rules one by one
through ensureRule into a freshly flushed chain. -/
def dedupRules (rs : List String) : List String :=
  rs.foldl (fun acc r => if r ∈ acc then acc else acc ++ [r]) []

/-- The match part selected for a chain direction. -/
def matchPartOf (c : PbChain) : String :=
  if c.direction = 0 then "src" else "dst"

/-- The body written for a request chain. -/
def chainBodyRules (c : PbChain) : List String :=
  dedupRules (c.ipsets.map (fun i => dropRule c.name i (matchPartOf c)))

/-- A rule is present in a chain of the state. -/
def hasRule (s : List IptChain) (m r : String) : Prop :=
  ∃ rs, getChain s m = some rs ∧ r ∈ rs

theorem getChain_setChainRules_self (s : List IptChain) (n : String)
    (rs : List String) (h : (getChain s n).isSome) :
    getChain (setChainRules s n rs) n = some rs := by
  induction s with
  | nil => simp [getChain] at h
  | cons c rest ih =>
    by_cases hc : c.name = n
    · simp [setChainRules, getChain, hc]
    · simp [setChainRules, getChain, hc] at h ⊢
      exact ih h

theorem getChain_setChainRules_ne (s : List IptChain) (n m : String)
    (rs : List String) (h : m ≠ n) :
    getChain (setChainRules s n rs) m = getChain s m := by
  induction s with
  | nil => rfl
  | cons c rest ih =>
    by_cases hc : c.name = n
    · subst hc
      simp [setChainRules, getChain, Ne.symm h]
    · by_cases hm : c.name = m <;> simp [setChainRules, getChain, hc, hm, ih, h]

theorem getChain_append_ne (s : List IptChain) (n m : String) (rs : List String)
    (h : m ≠ n) : getChain (s ++ [⟨n, rs⟩]) m = getChain s m := by
  induction s with
  | nil => simp [getChain, Ne.symm h]
  | cons c rest ih =>
    by_cases hm : c.name = m <;> simp [getChain, hm, ih]

theorem getChain_append_self (s : List IptChain) (n : String) (rs : List String)
    (h : getChain s n = none) : getChain (s ++ [⟨n, rs⟩]) n = some rs := by
  induction s with
  | nil => simp [getChain]
  | cons c rest ih =>
    by_cases hc : c.name = n
    · simp [getChain, hc] at h
    · simp [getChain, hc] at h ⊢
      exact ih h

theorem getChain_ensureRule_ne (s : List IptChain) (n m r : String) (h : m ≠ n) :
    getChain (ensureRule s n r) m = getChain s m := by
  unfold ensureRule
  rcases hg : getChain s n with _ | rs
  · rfl
  · by_cases hr : r ∈ rs
    · simp [hr]
    · simp [hr, getChain_setChainRules_ne s n m _ h]

theorem getChain_ensureRule_isSome (s : List IptChain) (n m r : String)
    (h : (getChain s m).isSome) : (getChain (ensureRule s n r) m).isSome := by
  by_cases hm : m = n
  · subst hm
    unfold ensureRule
    rcases hg : getChain s m with _ | rs
    · simp [hg] at h
    · by_cases hr : r ∈ rs
      · simp [hr, hg]
      · simp [hr, getChain_setChainRules_self s m _ (by simp [hg])]
  · rw [getChain_ensureRule_ne s n m r hm]
    exact h

theorem getChain_foldl_ensureRule_ne (n m : String) (h : m ≠ n) :
    ∀ (rules : List String) (st : List IptChain),
    getChain (rules.foldl (fun st r => ensureRule st n r) st) m = getChain st m := by
  intro rules
  induction rules with
  | nil => intro st; rfl
  | cons r rest ih =>
    intro st
    rw [List.foldl_cons, ih, getChain_ensureRule_ne st n m r h]

theorem getChain_foldl_ensureRule_self (n : String) :
    ∀ (rules : List String) (st : List IptChain) (acc : List String),
    getChain st n = some acc →
    getChain (rules.foldl (fun st r => ensureRule st n r) st) n =
      some (rules.foldl (fun acc r => if r ∈ acc then acc else acc ++ [r]) acc) := by
  intro rules
  induction rules with
  | nil => intro st acc h; simpa using h
  | cons r rest ih =>
    intro st acc h
    rw [List.foldl_cons, List.foldl_cons]
    by_cases hr : r ∈ acc
    · have : ensureRule st n r = st := by
        unfold ensureRule
        rw [h]
        simp [hr]
      rw [this, if_pos hr]
      exact ih st acc h
    · have : getChain (ensureRule st n r) n = some (acc ++ [r]) := by
        unfold ensureRule
        rw [h]
        simp only [hr, if_false]
        exact getChain_setChainRules_self st n _ (by simp [h])
      rw [if_neg hr]
      exact ih _ _ this

theorem getChain_createNewChain_ne (s : List IptChain) (c : IptChain) (m : String)
    (h : m ≠ c.name) : getChain (createNewChain s c) m = getChain s m := by
  unfold createNewChain
  rw [getChain_foldl_ensureRule_ne c.name m h,
    getChain_setChainRules_ne _ c.name m _ h]
  by_cases hg : (getChain s c.name).isSome
  · simp [hg]
  · simp [hg, getChain_append_ne s c.name m _ h]

theorem getChain_createNewChain_self (s : List IptChain) (c : IptChain) :
    getChain (createNewChain s c) c.name = some (dedupRules c.rules) := by
  unfold createNewChain dedupRules
  have hsome : (getChain
      (if (getChain s c.name).isSome then s else s ++ [⟨c.name, []⟩])
      c.name).isSome := by
    rcases hg : getChain s c.name with _ | rs
    · simp [hg, getChain_append_self s c.name [] hg]
    · simp [hg]
  exact getChain_foldl_ensureRule_self c.name c.rules _ []
    (getChain_setChainRules_self _ c.name [] hsome)

theorem getChain_createNewChain_isSome (s : List IptChain) (c : IptChain)
    (m : String) (h : (getChain s m).isSome) :
    (getChain (createNewChain s c) m).isSome := by
  by_cases hm : m = c.name
  · subst hm
    simp [getChain_createNewChain_self s c]
  · rw [getChain_createNewChain_ne s c m hm]
    exact h

theorem hasRule_ensureRule_self (s : List IptChain) (n r : String)
    (h : (getChain s n).isSome) : hasRule (ensureRule s n r) n r := by
  unfold ensureRule
  rcases hg : getChain s n with _ | rs
  · simp [hg] at h
  · by_cases hr : r ∈ rs
    · exact ⟨rs, by simp [hr, hg], hr⟩
    · refine ⟨rs ++ [r], ?_, by simp⟩
      simp only [hr, if_false]
      exact getChain_setChainRules_self s n _ (by simp [hg])

theorem setIptablesChain_eq_ok (s : List IptChain) (c : PbChain)
    (h : c.direction = 0 ∨ c.direction = 1) :
    setIptablesChain s c = .ok (setIptablesChainOk s c) := by
  rcases h with h | h <;> simp [setIptablesChain, setIptablesChainOk, h]

theorem setIptablesChain_err (s : List IptChain) (c : PbChain)
    (h0 : c.direction ≠ 0) (h1 : c.direction ≠ 1) :
    setIptablesChain s c =
      .error ("unknown chain direction " ++ toString c.direction) := by
  simp [setIptablesChain, h0, h1]

theorem getChain_setOk_ne (s : List IptChain) (c : PbChain) (m : String)
    (hm1 : m ≠ c.name) (hm2 : m ≠ "CHAOS-INPUT") (hm3 : m ≠ "CHAOS-OUTPUT") :
    getChain (setIptablesChainOk s c) m = getChain s m := by
  unfold setIptablesChainOk
  by_cases h : c.direction = 0
  · rw [if_pos h, getChain_ensureRule_ne _ _ _ _ hm2,
      getChain_createNewChain_ne _ _ _ hm1]
  · rw [if_neg h, getChain_ensureRule_ne _ _ _ _ hm3,
      getChain_createNewChain_ne _ _ _ hm1]

theorem getChain_setOk_self (s : List IptChain) (c : PbChain)
    (hc1 : c.name ≠ "CHAOS-INPUT") (hc2 : c.name ≠ "CHAOS-OUTPUT") :
    getChain (setIptablesChainOk s c) c.name = some (chainBodyRules c) := by
  unfold setIptablesChainOk chainBodyRules matchPartOf
  by_cases h : c.direction = 0
  · rw [if_pos h, if_pos h, getChain_ensureRule_ne _ _ _ _ hc1,
      getChain_createNewChain_self]
  · rw [if_neg h, if_neg h, getChain_ensureRule_ne _ _ _ _ hc2,
      getChain_createNewChain_self]

theorem getChain_setOk_isSome (s : List IptChain) (c : PbChain) (m : String)
    (h : (getChain s m).isSome) :
    (getChain (setIptablesChainOk s c) m).isSome := by
  unfold setIptablesChainOk
  by_cases hd : c.direction = 0
  · rw [if_pos hd]
    exact getChain_ensureRule_isSome _ _ _ _ (getChain_createNewChain_isSome _ _ _ h)
  · rw [if_neg hd]
    exact getChain_ensureRule_isSome _ _ _ _ (getChain_createNewChain_isSome _ _ _ h)

theorem initializeEnv_spec (s : List IptChain)
    (hin : (getChain s "INPUT").isSome) (hout : (getChain s "OUTPUT").isSome) :
    (getChain (initializeEnv s) "CHAOS-INPUT").isSome ∧
    (getChain (initializeEnv s) "CHAOS-OUTPUT").isSome ∧
    hasRule (initializeEnv s) "INPUT" "-A INPUT -j CHAOS-INPUT" ∧
    hasRule (initializeEnv s) "OUTPUT" "-A OUTPUT -j CHAOS-OUTPUT" := by
  have e4 : initializeEnv s =
      ensureRule
        (createNewChain
          (ensureRule (createNewChain s ⟨"CHAOS-INPUT", []⟩)
            "INPUT" "-A INPUT -j CHAOS-INPUT")
          ⟨"CHAOS-OUTPUT", []⟩)
        "OUTPUT" "-A OUTPUT -j CHAOS-OUTPUT" := rfl
  refine ⟨?_, ?_, ?_, ?_⟩
  · rw [e4, getChain_ensureRule_ne _ _ _ _ (by decide),
      getChain_createNewChain_ne _ _ _ (by decide),
      getChain_ensureRule_ne _ _ _ _ (by decide),
      getChain_createNewChain_self]
    simp
  · rw [e4]
    apply getChain_ensureRule_isSome
    rw [getChain_createNewChain_self]
    simp
  · have h1 : (getChain (createNewChain s ⟨"CHAOS-INPUT", []⟩) "INPUT").isSome :=
      getChain_createNewChain_isSome _ _ _ hin
    obtain ⟨rs, hrs, hmem⟩ := hasRule_ensureRule_self
      (createNewChain s ⟨"CHAOS-INPUT", []⟩) "INPUT" "-A INPUT -j CHAOS-INPUT" h1
    refine ⟨rs, ?_, hmem⟩
    rw [e4, getChain_ensureRule_ne _ _ _ _ (by decide),
      getChain_createNewChain_ne _ _ _ (by decide)]
    exact hrs
  · rw [e4]
    apply hasRule_ensureRule_self
    apply getChain_createNewChain_isSome
    apply getChain_ensureRule_isSome
    exact getChain_createNewChain_isSome _ _ _ hout

theorem setIptablesChainsLoop_spec :
    ∀ (chains : List PbChain) (s : List IptChain),
    (∀ c ∈ chains, c.direction = 0 ∨ c.direction = 1) →
    ((chains.map PbChain.name).Nodup) →
    (∀ c ∈ chains, c.name ≠ "CHAOS-INPUT" ∧ c.name ≠ "CHAOS-OUTPUT") →
    ∃ sF, setIptablesChainsLoop s chains = .ok sF ∧
      (∀ m, (∀ c ∈ chains, m ≠ c.name) → m ≠ "CHAOS-INPUT" → m ≠ "CHAOS-OUTPUT" →
        getChain sF m = getChain s m) ∧
      (∀ c ∈ chains, getChain sF c.name = some (chainBodyRules c)) ∧
      (∀ m, (getChain s m).isSome → (getChain sF m).isSome) := by
  intro chains
  induction chains with
  | nil =>
    intro s _ _ _
    exact ⟨s, rfl, fun m _ _ _ => rfl, fun c hc => absurd hc (by simp),
      fun m h => h⟩
  | cons c rest ih =>
    intro s hdir hnodup hres
    have hc0 : c.direction = 0 ∨ c.direction = 1 := hdir c (by simp)
    have hcres := hres c (by simp)
    rw [List.map_cons, List.nodup_cons] at hnodup
    obtain ⟨hnotmem, hnd⟩ := hnodup
    obtain ⟨sF, hloop, hframe, hbody, hmono⟩ := ih (setIptablesChainOk s c)
      (fun c' hc' => hdir c' (by simp [hc']))
      hnd
      (fun c' hc' => hres c' (by simp [hc']))
    refine ⟨sF, ?_, ?_, ?_, ?_⟩
    · show setIptablesChainsLoop s (c :: rest) = .ok sF
      unfold setIptablesChainsLoop
      rw [setIptablesChain_eq_ok s c hc0]
      exact hloop
    · intro m hm hm2 hm3
      rw [hframe m (fun c' hc' => hm c' (by simp [hc'])) hm2 hm3,
        getChain_setOk_ne s c m (hm c (by simp)) hm2 hm3]
    · intro c' hc'
      rcases List.mem_cons.mp hc' with rfl | hc'
      · have hcn : ∀ c'' ∈ rest, c'.name ≠ c''.name := by
          intro c'' hc'' he
          exact hnotmem (he ▸ List.mem_map_of_mem PbChain.name hc'')
        rw [hframe c'.name hcn hcres.1 hcres.2,
          getChain_setOk_self s c' hcres.1 hcres.2]
      · exact hbody c' hc'
    · intro m hm
      exact hmono m (getChain_setOk_isSome s c m hm)

theorem dedupRules_aux_mem (y : String) :
    ∀ (l acc : List String),
    (y ∈ l.foldl (fun acc r => if r ∈ acc then acc else acc ++ [r]) acc) ↔
      (y ∈ acc ∨ y ∈ l) := by
  intro l
  induction l with
  | nil => intro acc; simp
  | cons r rest ih =>
    intro acc
    rw [List.foldl_cons]
    by_cases hr : r ∈ acc
    · rw [if_pos hr, ih]
      constructor
      · rintro (h | h)
        · exact Or.inl h
        · exact Or.inr (by simp [h])
      · rintro (h | h)
        · exact Or.inl h
        · rcases List.mem_cons.mp h with rfl | h
          · exact Or.inl hr
          · exact Or.inr h
    · rw [if_neg hr, ih]
      constructor
      · rintro (h | h)
        · rcases List.mem_append.mp h with h | h
          · exact Or.inl h
          · simp at h
            exact Or.inr (by simp [h])
        · exact Or.inr (by simp [h])
      · rintro (h | h)
        · exact Or.inl (by simp [h])
        · rcases List.mem_cons.mp h with rfl | h
          · exact Or.inl (by simp)
          · exact Or.inr h

theorem dedupRules_aux_nodup :
    ∀ (l acc : List String), acc.Nodup →
    (l.foldl (fun acc r => if r ∈ acc then acc else acc ++ [r]) acc).Nodup := by
  intro l
  induction l with
  | nil => intro acc h; simpa using h
  | cons r rest ih =>
    intro acc h
    rw [List.foldl_cons]
    by_cases hr : r ∈ acc
    · rw [if_pos hr]
      exact ih acc h
    · rw [if_neg hr]
      refine ih (acc ++ [r]) ?_
      simp [List.nodup_append, h, hr]

theorem dedupRules_mem (y : String) (l : List String) :
    y ∈ dedupRules l ↔ y ∈ l := by
  unfold dedupRules
  rw [dedupRules_aux_mem]
  simp

theorem dedupRules_nodup (l : List String) : (dedupRules l).Nodup :=
  dedupRules_aux_nodup l [] (by simp)

/-- C7: a SetIptablesChains request on a namespace with stock INPUT/OUTPUT
chains, whose requested chains carry distinct non-reserved names and valid
directions, succeeds; afterwards the CHAOS-INPUT and CHAOS-OUTPUT chains
exist and are hooked from the stock chains, and every requested chain's body
consists exactly of one DROP rule per listed ipset in the form
"-A chain -m set --match-set ipset src|dst -j DROP -w 5" (src for INPUT
chains, dst for OUTPUT chains), existing chains having been flushed and
rewritten (the initial body of any chain is discarded); a chain with any
other direction yields an unknown-direction error. -/
theorem iptables_chains_spec (s0 : List IptChain) (chains : List PbChain)
    (hin : (getChain s0 "INPUT").isSome)
    (hout : (getChain s0 "OUTPUT").isSome)
    (hdir : ∀ c ∈ chains, c.direction = 0 ∨ c.direction = 1)
    (hnodup : (chains.map PbChain.name).Nodup)
    (hres : ∀ c ∈ chains, c.name ≠ "CHAOS-INPUT" ∧ c.name ≠ "CHAOS-OUTPUT" ∧
      c.name ≠ "INPUT" ∧ c.name ≠ "OUTPUT") :
    (∃ sF, setIptablesChainsRequest s0 chains = .ok sF ∧
      (getChain sF "CHAOS-INPUT").isSome ∧
      (getChain sF "CHAOS-OUTPUT").isSome ∧
      hasRule sF "INPUT" "-A INPUT -j CHAOS-INPUT" ∧
      hasRule sF "OUTPUT" "-A OUTPUT -j CHAOS-OUTPUT" ∧
      (∀ c ∈ chains, getChain sF c.name = some (chainBodyRules c)) ∧
      (∀ c ∈ chains, ∀ i ∈ c.ipsets,
        (chainBodyRules c).count (dropRule c.name i (matchPartOf c)) = 1) ∧
      (∀ c ∈ chains, ∀ r ∈ chainBodyRules c,
        ∃ i ∈ c.ipsets, r = dropRule c.name i (matchPartOf c))) ∧
    (∀ (s : List IptChain) (c : PbChain), c.direction ≠ 0 → c.direction ≠ 1 →
      setIptablesChain s c =
        .error ("unknown chain direction " ++ toString c.direction)) := by
  obtain ⟨hCI, hCO, hHI, hHO⟩ := initializeEnv_spec s0 hin hout
  obtain ⟨sF, hloop, hframe, hbody, hmono⟩ := setIptablesChainsLoop_spec chains
    (initializeEnv s0) hdir hnodup (fun c hc => ⟨(hres c hc).1, (hres c hc).2.1⟩)
  constructor
  · refine ⟨sF, hloop, hmono _ hCI, hmono _ hCO, ?_, ?_, hbody, ?_, ?_⟩
    · obtain ⟨rs, hrs, hmem⟩ := hHI
      refine ⟨rs, ?_, hmem⟩
      rw [hframe "INPUT" (fun c hc => Ne.symm (hres c hc).2.2.1)
        (by decide) (by decide)]
      exact hrs
    · obtain ⟨rs, hrs, hmem⟩ := hHO
      refine ⟨rs, ?_, hmem⟩
      rw [hframe "OUTPUT" (fun c hc => Ne.symm (hres c hc).2.2.2)
        (by decide) (by decide)]
      exact hrs
    · intro c hc i hi
      exact List.count_eq_one_of_mem (dedupRules_nodup _)
        ((dedupRules_mem _ _).mpr
          (List.mem_map_of_mem (fun i => dropRule c.name i (matchPartOf c)) hi))
    · intro c hc r hr
      have := (dedupRules_mem r _).mp hr
      obtain ⟨i, hi, rfl⟩ := List.mem_map.mp this
      exact ⟨i, hi, rfl⟩
  · intro s c h0 h1
    exact setIptablesChain_err s c h0 h1

/-- Witness for C7 at a concrete input: stock chains plus one INPUT-direction
request chain with a single ipset. -/
theorem iptables_chains_witness :
    ∃ sF, setIptablesChainsRequest [⟨"INPUT", []⟩, ⟨"OUTPUT", []⟩]
        [⟨"chaos-a", 0, ["setA"]⟩] = .ok sF ∧
      getChain sF "chaos-a" =
        some ["-A chaos-a -m set --match-set setA src -j DROP -w 5"] ∧
      hasRule sF "INPUT" "-A INPUT -j CHAOS-INPUT" := by
  obtain ⟨h, _⟩ := iptables_chains_spec [⟨"INPUT", []⟩, ⟨"OUTPUT", []⟩]
    [⟨"chaos-a", 0, ["setA"]⟩] (by decide) (by decide)
    (by intro c hc; simp at hc; subst hc; exact Or.inl rfl)
    (by decide)
    (by intro c hc; simp at hc; subst hc; exact ⟨by decide, by decide, by decide, by decide⟩)
  obtain ⟨sF, hok, _, _, hHI, _, hbody, _, _⟩ := h
  refine ⟨sF, hok, ?_, hHI⟩
  have := hbody ⟨"chaos-a", 0, ["setA"]⟩ (by simp)
  rw [this]
  rfl

/- ===================== C5 : SetTcs qdisc layout ======================= -/

/-- The pb.Tbf message (uint64 fields as Nat). -/
structure Tbf where
  rate : Nat
  buffer : Nat
  limit : Nat
  peakRate : Nat
  minBurst : Nat
  deriving Repr, DecidableEq

/-- The pb.Tc qdisc type. -/
inductive TcType
  | netem
  | bandwidth
  deriving Repr, DecidableEq

/-- The pb.Tc message of a TcsRequest. -/
structure Tc where
  type : TcType
  ipset : String
  netemSpec : Option Netem
  tbf : Option Tbf
  deriving Repr, DecidableEq

/-- One tc invocation issued by the SetTcs handler. -/
inductive TcCmd
  | flushCmd
  | addTc (parentArg handleArg : String) (tc : Tc)
  | addPrioQdisc (parentArg : String) (handle bands : Nat)
  | addSfq (parentArg : String) (handle : Nat)
  | addFilter (parentArg classid ipset : String)
  deriving Repr, DecidableEq

/-- The "parent N:" argument text. -/
def pstr (n : Nat) : String := "parent " ++ toString n ++ ":"

/-- The "parent A:B" argument text. -/
def pstr2 (a b : Nat) : String :=
  "parent " ++ toString a ++ ":" ++ toString b

/-- The "handle N:" argument text. -/
def hstr (n : Nat) : String := "handle " ++ toString n ++ ":"

/-- The "classid A:B" argument text. -/
def cstr (a b : Nat) : String :=
  "classid " ++ toString a ++ ":" ++ toString b

/-- Append a filter tc into its ipset's bucket (the Go filterTc map). -/
def insertGroup : List (String × List Tc) → String → Tc → List (String × List Tc)
  | [], k, t => [(k, [t])]
  | (k', ts) :: rest, k, t =>
    if k' = k then (k', ts ++ [t]) :: rest
    else (k', ts) :: insertGroup rest k t

/-- The partition loop of SetTcs: items without an ipset go to globalTc in
order; items with an ipset are grouped per ipset (the Go map; since Go map
iteration order is unspecified, groups are modelled in first-appearance
order). -/
def splitTcsAux : List Tc → List Tc → List (String × List Tc) →
    List Tc × List (String × List Tc)
  | [], g, f => (g, f)
  | t :: rest, g, f =>
    if t.ipset = "" then splitTcsAux rest (g ++ [t]) f
    else splitTcsAux rest g (insertGroup f t.ipset t)

/-- Partition of the request into global items and per-ipset filter groups. -/
def splitTcs (tcs : List Tc) : List Tc × List (String × List Tc) :=
  splitTcsAux tcs [] []

/-- The global-item loop of SetTcs: item 0 is attached at root, item i > 0
under "parent i:", with handle i+1. -/
def emitGlobals : Nat → List Tc → List TcCmd
  | _, [] => []
  | i, t :: rest =>
    .addTc (if i = 0 then "root" else pstr i) (hstr (i + 1)) t
      :: emitGlobals (i + 1) rest

/-- Embedding of tcClient.addPrio: a prio qdisc with the given band count
(handle parent+1) and sfq qdiscs on its first three bands. -/
def addPrioCmds (parent band : Nat) : List TcCmd :=
  .addPrioQdisc (if parent > 0 then pstr parent else "root") (parent + 1) band
    :: (List.range 3).map
      (fun i => .addSfq (pstr2 (parent + 1) (i + 1)) (parent + 1 + (i + 1)))

/-- The inner item loop for one filter group: the first item hangs off the
group's prio band, later items are chained under the previous handle
(currentHandler); returns the commands and the final currentHandler. -/
def emitFilterItems (parent band : Nat) :
    Bool → Nat → List Tc → List TcCmd × Nat
  | _, ch, [] => ([], ch)
  | first, ch, t :: rest =>
    let parentArg := if first then pstr2 parent band else pstr ch
    let r := emitFilterItems parent band false (ch + 1) rest
    (.addTc parentArg (hstr (ch + 1)) t :: r.1, r.2)

/-- The outer group loop: group j occupies band j+4 and gets one basic-match
ipset classifier filter steering traffic into that band. -/
def emitGroups (parent : Nat) : Nat → Nat → List (String × List Tc) → List TcCmd
  | _, _, [] => []
  | j, ch, (ipset, ts) :: rest =>
    let r := emitFilterItems parent (j + 4) true ch ts
    r.1 ++ [.addFilter (pstr parent) (cstr parent (j + 4)) ipset]
      ++ emitGroups parent (j + 1) r.2 rest

/-- Embedding of daemonServer.SetTcs (after pid and namespace resolution):
flush, the chained global items, the prio qdisc with 3 + number of groups
bands, and the per-group filter items and classifiers. -/
def setTcsCmds (tcs : List Tc) : List TcCmd :=
  let s := splitTcs tcs
  let n := s.1.length
  .flushCmd :: (emitGlobals 0 s.1
    ++ addPrioCmds n (3 + s.2.length)
    ++ emitGroups (n + 1) 0 (n + 4) s.2)

/-- The filter items of a request (the items carrying an ipset). -/
def filterItems (tcs : List Tc) : List Tc :=
  tcs.filter (fun t => t.ipset ≠ "")

/-- The distinct ipsets carried by the filter items, in order of last
appearance (only the count matters below). -/
def distinctFilterIpsets (tcs : List Tc) : List String :=
  ((filterItems tcs).map (fun t => t.ipset)).dedup

/-- The band count of the first prio qdisc in a command stream. -/
def prioBandsOf : List TcCmd → Option Nat
  | [] => none
  | .addPrioQdisc _ _ b :: _ => some b
  | _ :: rest => prioBandsOf rest

/-- An all-zero netem payload used in concrete examples. -/
def netem0 : Netem := ⟨0, 0, 0, 0, 0, 0, 0, 0, 0, 0, 0, 0, 0⟩

/-- C5 (counterexample): a request with two netem items sharing the ipset
"A" produces a PRIO qdisc with 3 + 1 = 4 bands, not 3 + 2: the Go code uses
len(filterTc) — the number of distinct ipsets (map keys) — not the number of
filter items. -/
theorem settcs_bands_counterexample :
    prioBandsOf (setTcsCmds
      [⟨.netem, "A", some netem0, none⟩, ⟨.netem, "A", some netem0, none⟩]) =
      some 4 ∧
    (filterItems
      [⟨.netem, "A", some netem0, none⟩, ⟨.netem, "A", some netem0, none⟩]).length
      = 2 ∧
    (4 : Nat) ≠ 3 + 2 := by
  refine ⟨rfl, rfl, by decide⟩

/-- The spec-side description of the global tower: item i of the globals is
attached under "parent i:" (root for i = 0) with handle i+1. -/
def expectedGlobalCmds (g : List Tc) : List TcCmd :=
  (g.enumFrom 0).map (fun p =>
    .addTc (if p.1 = 0 then "root" else pstr p.1) (hstr (p.1 + 1)) p.2)

/-- The spec-side description of one band's qdiscs: the first item hangs off
the prio band, each later item is chained under the previous item's handle. -/
def expectedItemCmds (prio band firstHandle : Nat) : List Tc → List TcCmd
  | [] => []
  | t :: rest =>
    .addTc (pstr2 prio band) (hstr firstHandle) t
      :: (rest.enumFrom firstHandle).map
        (fun q => .addTc (pstr q.1) (hstr (q.1 + 1)) q.2)

/-- The spec-side description of the filter section: group j gets band j+4,
its items chained from handle h+1 on, plus one basic-match ipset classifier
steering packets into the band. -/
def expectedGroupCmds (prio : Nat) : Nat → Nat → List (String × List Tc) → List TcCmd
  | _, _, [] => []
  | j, h, (ipset, ts) :: rest =>
    expectedItemCmds prio (j + 4) (h + 1) ts
      ++ [.addFilter (pstr prio) (cstr prio (j + 4)) ipset]
      ++ expectedGroupCmds prio (j + 1) (h + ts.length) rest

/-- The spec-side command stream (with the amended band count): flush, the
global tower, a prio qdisc with 3 + (number of DISTINCT ipsets among the
filter items) bands whose first three bands carry sfq qdiscs, then the
per-group chains and classifiers. -/
def setTcsExpected (tcs : List Tc) : List TcCmd :=
  let s := splitTcs tcs
  let n := s.1.length
  .flushCmd :: (expectedGlobalCmds s.1
    ++ (.addPrioQdisc (if n > 0 then pstr n else "root") (n + 1)
          (3 + (distinctFilterIpsets tcs).length)
        :: (List.range 3).map
          (fun i => .addSfq (pstr2 (n + 1) (i + 1)) (n + 1 + (i + 1))))
    ++ expectedGroupCmds (n + 1) 0 (n + 4) s.2)

theorem emitGlobals_eq : ∀ (g : List Tc) (i : Nat),
    emitGlobals i g = (g.enumFrom i).map (fun p =>
      TcCmd.addTc (if p.1 = 0 then "root" else pstr p.1) (hstr (p.1 + 1)) p.2) := by
  intro g
  induction g with
  | nil => intro i; rfl
  | cons t rest ih =>
    intro i
    simp [emitGlobals, List.enumFrom, ih (i + 1)]

theorem emitFilterItems_false_eq (parent band : Nat) :
    ∀ (ts : List Tc) (ch : Nat),
    emitFilterItems parent band false ch ts =
      ((ts.enumFrom ch).map (fun q =>
        TcCmd.addTc (pstr q.1) (hstr (q.1 + 1)) q.2), ch + ts.length) := by
  intro ts
  induction ts with
  | nil => intro ch; rfl
  | cons t rest ih =>
    intro ch
    simp [emitFilterItems, List.enumFrom, ih (ch + 1)]
    omega

theorem emitFilterItems_true_eq (parent band : Nat) (ts : List Tc) (ch : Nat) :
    emitFilterItems parent band true ch ts =
      (expectedItemCmds parent band (ch + 1) ts, ch + ts.length) := by
  cases ts with
  | nil => rfl
  | cons t rest =>
    simp [emitFilterItems, expectedItemCmds,
      emitFilterItems_false_eq parent band rest (ch + 1)]
    omega

theorem emitGroups_eq (parent : Nat) :
    ∀ (gs : List (String × List Tc)) (j ch : Nat),
    emitGroups parent j ch gs = expectedGroupCmds parent j ch gs := by
  intro gs
  induction gs with
  | nil => intro j ch; rfl
  | cons g rest ih =>
    intro j ch
    obtain ⟨ipset, ts⟩ := g
    simp [emitGroups, expectedGroupCmds,
      emitFilterItems_true_eq parent (j + 4) ts ch, ih]

theorem insertGroup_keys (f : List (String × List Tc)) (k : String) (t : Tc) :
    (insertGroup f k t).map Prod.fst =
      if k ∈ f.map Prod.fst then f.map Prod.fst else f.map Prod.fst ++ [k] := by
  induction f with
  | nil => simp [insertGroup]
  | cons g rest ih =>
    obtain ⟨k', ts⟩ := g
    by_cases h : k' = k
    · subst h
      simp [insertGroup]
    · by_cases hm : k ∈ rest.map Prod.fst <;>
        simp [insertGroup, h, ih, hm, Ne.symm h]

theorem insertGroup_keys_toFinset (f : List (String × List Tc)) (k : String)
    (t : Tc) :
    ((insertGroup f k t).map Prod.fst).toFinset =
      insert k (f.map Prod.fst).toFinset := by
  rw [insertGroup_keys]
  by_cases hm : k ∈ f.map Prod.fst
  · rw [if_pos hm, Finset.insert_eq_self.mpr (List.mem_toFinset.mpr hm)]
  · rw [if_neg hm]
    ext x
    simp [or_comm]

theorem insertGroup_keys_nodup (f : List (String × List Tc)) (k : String)
    (t : Tc) (h : (f.map Prod.fst).Nodup) :
    ((insertGroup f k t).map Prod.fst).Nodup := by
  rw [insertGroup_keys]
  by_cases hm : k ∈ f.map Prod.fst
  · simpa [hm] using h
  · simp [hm, List.nodup_append, h]

theorem splitTcsAux_keys_toFinset :
    ∀ (ts g : List Tc) (f : List (String × List Tc)),
    ((splitTcsAux ts g f).2.map Prod.fst).toFinset =
      (f.map Prod.fst).toFinset ∪
        ((filterItems ts).map (fun t => t.ipset)).toFinset := by
  intro ts
  induction ts with
  | nil => intro g f; simp [splitTcsAux, filterItems]
  | cons t rest ih =>
    intro g f
    by_cases h : t.ipset = ""
    · rw [show splitTcsAux (t :: rest) g f = splitTcsAux rest (g ++ [t]) f by
        simp [splitTcsAux, h]]
      rw [ih]
      congr 1
      simp [filterItems, List.filter_cons, h]
    · rw [show splitTcsAux (t :: rest) g f =
        splitTcsAux rest g (insertGroup f t.ipset t) by simp [splitTcsAux, h]]
      rw [ih, insertGroup_keys_toFinset]
      ext x
      simp [filterItems, List.filter_cons, h]

theorem splitTcsAux_keys_nodup :
    ∀ (ts g : List Tc) (f : List (String × List Tc)),
    (f.map Prod.fst).Nodup → ((splitTcsAux ts g f).2.map Prod.fst).Nodup := by
  intro ts
  induction ts with
  | nil => intro g f h; simpa [splitTcsAux] using h
  | cons t rest ih =>
    intro g f hf
    by_cases h : t.ipset = ""
    · rw [show splitTcsAux (t :: rest) g f = splitTcsAux rest (g ++ [t]) f by
        simp [splitTcsAux, h]]
      exact ih (g ++ [t]) f hf
    · rw [show splitTcsAux (t :: rest) g f =
        splitTcsAux rest g (insertGroup f t.ipset t) by simp [splitTcsAux, h]]
      exact ih g _ (insertGroup_keys_nodup f t.ipset t hf)

theorem splitTcs_groups_length (tcs : List Tc) :
    (splitTcs tcs).2.length = (distinctFilterIpsets tcs).length := by
  have hnd : ((splitTcs tcs).2.map Prod.fst).Nodup :=
    splitTcsAux_keys_nodup tcs [] [] (by simp)
  have hfin : ((splitTcs tcs).2.map Prod.fst).toFinset =
      ((filterItems tcs).map (fun t => t.ipset)).toFinset := by
    have h := splitTcsAux_keys_toFinset tcs [] []
    simpa [splitTcs] using h
  calc (splitTcs tcs).2.length
      = ((splitTcs tcs).2.map Prod.fst).length := (List.length_map _ _).symm
    _ = ((splitTcs tcs).2.map Prod.fst).dedup.length := by rw [hnd.dedup]
    _ = ((splitTcs tcs).2.map Prod.fst).toFinset.card :=
        (List.card_toFinset _).symm
    _ = ((filterItems tcs).map (fun t => t.ipset)).toFinset.card := by rw [hfin]
    _ = (distinctFilterIpsets tcs).length := List.card_toFinset _

/-- C5 (amended): the SetTcs command stream is the flush, the ipset-less
items chained linearly from root (item i under item i-1), then a PRIO qdisc
whose band count is 3 plus the number of DISTINCT ipsets among the filter
items, with sfq qdiscs on bands 1-3; each further band carries the qdiscs of
all the filter items sharing that band's ipset, chained, plus one
basic-match ipset classifier filter steering packets into the band. -/
theorem settcs_layout_amended (tcs : List Tc) :
    setTcsCmds tcs = setTcsExpected tcs := by
  unfold setTcsCmds setTcsExpected addPrioCmds expectedGlobalCmds
  simp only [emitGlobals_eq, emitGroups_eq, splitTcs_groups_length]

end ChaosMesh
